import Mathlib

/-!
Verification of the length-prefixed framing codec, the stdio transport, the
mock-agent session/chat protocol handlers and the client-side session driver
of this repository.

Modelling conventions (shallow embedding):

* Bytes are `Nat`s (each value in `0..255` in every use below); byte strings
  are `List Nat`.
* JSON serialization is handled at the payload level: `JSON.stringify` and
  `JSON.parse` are external JavaScript builtins, so a message value is
  represented by its serialized UTF-8 payload bytes.  Two values are equal
  under JSON round-tripping exactly when their canonical serializations are
  byte-equal, so frame-level statements quantify over payload byte lists.
* JavaScript strings are `List Char` (`Str` below); `Map` objects are
  insertion-ordered association lists.
* The agent process is single-threaded and chains message handling
  sequentially (`processing = processing.then(...)`), so handlers are pure
  state transformers; the wall clock (`new Date().toISOString()`) is an
  explicit parameter.
-/

/-- Bytes of a wire frame, each in `0..255`. -/
abbrev Byte := Nat

/-- The hard ceiling on a declared frame payload length:
`100 * 1024 * 1024` bytes, from `FrameDecoder.push`. -/
def maxFrameLength : Nat := 100 * 1024 * 1024

/-- Big-endian 4-byte encoding of a 32-bit value, as written by
`DataView.setUint32(0, n, false)` (which stores `n` modulo `2^32`). -/
def be32 (n : Nat) : List Byte :=
  [n % 2 ^ 32 / 2 ^ 24, n % 2 ^ 32 / 2 ^ 16 % 256, n % 2 ^ 32 / 2 ^ 8 % 256, n % 2 ^ 32 % 256]

/-- Big-endian 4-byte read at offset `off`, as performed by
`DataView.getUint32(0, false)` on the decoder buffer. -/
def readUint32 (b : List Byte) (off : Nat) : Nat :=
  b.getD off 0 * 2 ^ 24 + b.getD (off + 1) 0 * 2 ^ 16 + b.getD (off + 2) 0 * 2 ^ 8 +
    b.getD (off + 3) 0

/-- `encodeFrame` from `src/framing.ts`: a 4-byte big-endian length header
followed by the serialized payload bytes. -/
def encodeFrame (body : List Byte) : List Byte :=
  be32 body.length ++ body

/-- Decoder state: an accumulating buffer plus a read offset
(`FrameDecoder.buffer` / `FrameDecoder.offset`). -/
structure FrameDecoder where
  buffer : List Byte
  offset : Nat
deriving DecidableEq

/-- A freshly constructed `FrameDecoder`. -/
def FrameDecoder.init : FrameDecoder := ⟨[], 0⟩

/-- The frame-extraction loop of `FrameDecoder.push`: starting at `off`,
repeatedly read a 4-byte big-endian length, fail on an oversized declared
length, stop on a partial frame, otherwise slice out the payload and advance.
`fuel` bounds iteration; every caller passes at least `buf.length`, which
always suffices because each extracted frame consumes at least 4 bytes. -/
def pushLoop : Nat → List Byte → Nat → List (List Byte) → Except String (List (List Byte) × Nat)
  | 0, _, off, acc => .ok (acc.reverse, off)
  | fuel + 1, buf, off, acc =>
    if buf.length - off < 4 then .ok (acc.reverse, off)
    else
      let len := readUint32 buf off
      if len > maxFrameLength then
        .error ("Frame too large: " ++ Nat.repr len ++ " bytes")
      else if buf.length - off < 4 + len then .ok (acc.reverse, off)
      else
        pushLoop fuel buf (off + 4 + len) (((buf.drop (off + 4)).take len) :: acc)

/-- `FrameDecoder.push` from `src/framing.ts`, at payload level: an empty
chunk is a no-op; otherwise the consumed prefix is compacted away, the chunk
is appended, complete frames are extracted, and a fully drained buffer is
reset to an empty allocation.  Fatal framing errors are the `.error` case. -/
def FrameDecoder.push (d : FrameDecoder) (chunk : List Byte) :
    Except String (List (List Byte) × FrameDecoder) :=
  if chunk.length = 0 then .ok ([], d)
  else
    let buf := d.buffer.drop d.offset ++ chunk
    match pushLoop buf.length buf 0 [] with
    | .error e => .error e
    | .ok (out, off) =>
      if off = buf.length then .ok (out, ⟨[], 0⟩)
      else .ok (out, ⟨buf, off⟩)

/-- Feed a list of chunks to the decoder via separate `push` calls,
collecting the output list of each call. -/
def pushMany (d : FrameDecoder) : List (List Byte) →
    Except String (List (List (List Byte)) × FrameDecoder)
  | [] => .ok ([], d)
  | c :: rest =>
    match d.push c with
    | .error e => .error e
    | .ok (out, d') =>
      match pushMany d' rest with
      | .error e => .error e
      | .ok (outs, d'') => .ok (out :: outs, d'')

/-! ### Arithmetic facts about the header encoding -/

theorem be32_length (n : Nat) : (be32 n).length = 4 := rfl

theorem readUint32_be32_append (n : Nat) (rest : List Byte) (h : n < 2 ^ 32) :
    readUint32 (be32 n ++ rest) 0 = n := by
  have hm : n % 2 ^ 32 = n := Nat.mod_eq_of_lt h
  simp only [readUint32, be32, hm]
  simp only [List.getD, List.get?_eq_getElem?, List.cons_append, List.getElem?_cons_zero,
    List.getElem?_cons_succ, Option.getD_some]
  have h1 : n / 2 ^ 16 % 256 = n % 2 ^ 24 / 2 ^ 16 := by
    have := Nat.mod_mul_right_div_self n (2 ^ 16) 256
    simpa using this.symm
  have h2 : n / 2 ^ 8 % 256 = n % 2 ^ 16 / 2 ^ 8 := by
    have := Nat.mod_mul_right_div_self n (2 ^ 8) 256
    simpa using this.symm
  have e1 : 2 ^ 24 * (n / 2 ^ 24) + n % 2 ^ 24 = n := Nat.div_add_mod n (2 ^ 24)
  have e2 : 2 ^ 16 * (n % 2 ^ 24 / 2 ^ 16) + n % 2 ^ 24 % 2 ^ 16 = n % 2 ^ 24 :=
    Nat.div_add_mod (n % 2 ^ 24) (2 ^ 16)
  have e3 : 2 ^ 8 * (n % 2 ^ 16 / 2 ^ 8) + n % 2 ^ 16 % 2 ^ 8 = n % 2 ^ 16 :=
    Nat.div_add_mod (n % 2 ^ 16) (2 ^ 8)
  have d1 : n % 2 ^ 24 % 2 ^ 16 = n % 2 ^ 16 :=
    Nat.mod_mod_of_dvd n (by norm_num)
  have d2 : n % 2 ^ 16 % 2 ^ 8 = n % 2 ^ 8 :=
    Nat.mod_mod_of_dvd n (by norm_num)
  rw [h1, h2]
  omega

theorem encodeFrame_length (body : List Byte) : (encodeFrame body).length = 4 + body.length := by
  simp [encodeFrame, be32]
  omega

theorem getD_take_of_lt (l : List Byte) (n i : Nat) (d : Byte) (h : i < n) :
    (l.take n).getD i d = l.getD i d := by
  simp only [List.getD, List.get?_eq_getElem?, List.getElem?_take_of_lt h]

theorem readUint32_take (l : List Byte) (k : Nat) (h : 4 ≤ k) :
    readUint32 (l.take k) 0 = readUint32 l 0 := by
  unfold readUint32
  rw [getD_take_of_lt _ _ _ _ (by omega), getD_take_of_lt _ _ _ _ (by omega),
    getD_take_of_lt _ _ _ _ (by omega), getD_take_of_lt _ _ _ _ (by omega)]

theorem pushLoop_stop_short (fuel : Nat) (buf : List Byte) (off : Nat) (acc : List (List Byte))
    (h : buf.length - off < 4) : pushLoop fuel buf off acc = .ok (acc.reverse, off) := by
  cases fuel with
  | zero => rfl
  | succ fuel => simp [pushLoop, h]

theorem pushLoop_stop_incomplete (fuel : Nat) (body : List Byte) (k : Nat)
    (hlen : body.length ≤ maxFrameLength) (hk : k < (encodeFrame body).length) :
    pushLoop fuel ((encodeFrame body).take k) 0 [] = .ok ([], 0) := by
  cases fuel with
  | zero => rfl
  | succ fuel =>
    have hklen : ((encodeFrame body).take k).length = k := by
      rw [List.length_take]
      exact min_eq_left (le_of_lt hk)
    by_cases h4 : k < 4
    · simp [pushLoop, hklen, h4]
    · have hread : readUint32 ((encodeFrame body).take k) 0 = body.length := by
        rw [readUint32_take _ _ (by omega)]
        exact readUint32_be32_append body.length body
          (lt_of_le_of_lt hlen (by norm_num [maxFrameLength]))
      have hframe : (encodeFrame body).length = 4 + body.length := encodeFrame_length body
      simp only [pushLoop, hklen, hread, Nat.sub_zero]
      rw [if_neg (by omega), if_neg (by omega), if_pos (by omega)]
      rfl

theorem pushLoop_single (fuel : Nat) (body : List Byte) (acc : List (List Byte))
    (hlen : body.length ≤ maxFrameLength) (hfuel : 1 ≤ fuel) :
    pushLoop fuel (encodeFrame body) 0 acc =
      .ok ((body :: acc).reverse, (encodeFrame body).length) := by
  obtain ⟨fuel, rfl⟩ : ∃ f, fuel = f + 1 := ⟨fuel - 1, by omega⟩
  have hframe : (encodeFrame body).length = 4 + body.length := encodeFrame_length body
  have hread : readUint32 (encodeFrame body) 0 = body.length :=
    readUint32_be32_append body.length body (lt_of_le_of_lt hlen (by norm_num [maxFrameLength]))
  have hdrop : (encodeFrame body).drop (0 + 4) = body := by
    have : (0 : Nat) + 4 = (be32 body.length).length := by simp [be32]
    rw [this]
    exact List.drop_left (be32 body.length) body
  simp only [pushLoop, hread, Nat.sub_zero, hframe]
  rw [if_neg (by omega), if_neg (by omega), if_neg (by omega)]
  rw [hdrop, List.take_length]
  rw [pushLoop_stop_short fuel (encodeFrame body) (0 + 4 + body.length) _ (by omega)]

theorem pushLoop_oversized (fuel : Nat) (buf : List Byte) (off : Nat) (acc : List (List Byte))
    (hfuel : 1 ≤ fuel) (h4 : 4 ≤ buf.length - off) (hbig : readUint32 buf off > maxFrameLength) :
    pushLoop fuel buf off acc =
      .error ("Frame too large: " ++ Nat.repr (readUint32 buf off) ++ " bytes") := by
  obtain ⟨fuel, rfl⟩ : ∃ f, fuel = f + 1 := ⟨fuel - 1, by omega⟩
  simp only [pushLoop]
  rw [if_neg (by omega), if_pos hbig]

theorem pushLoop_inv (fuel : Nat) :
    ∀ (buf : List Byte) (off : Nat) (acc out : List (List Byte)) (off' : Nat),
      buf.length - off ≤ fuel → pushLoop fuel buf off acc = .ok (out, off') →
      buf.length - off' < 4 ∨ buf.length - off' < 4 + readUint32 buf off' := by
  induction fuel with
  | zero =>
    intro buf off acc out off' hfuel heq
    simp only [pushLoop] at heq
    injection heq with h
    cases h
    exact Or.inl (by omega)
  | succ fuel ih =>
    intro buf off acc out off' hfuel heq
    simp only [pushLoop] at heq
    by_cases h4 : buf.length - off < 4
    · rw [if_pos h4] at heq
      injection heq with h
      cases h
      exact Or.inl h4
    · rw [if_neg h4] at heq
      by_cases hbig : readUint32 buf off > maxFrameLength
      · rw [if_pos hbig] at heq
        exact absurd heq (by simp)
      · rw [if_neg hbig] at heq
        by_cases hpart : buf.length - off < 4 + readUint32 buf off
        · rw [if_pos hpart] at heq
          injection heq with h
          cases h
          exact Or.inr hpart
        · rw [if_neg hpart] at heq
          exact ih buf (off + 4 + readUint32 buf off) _ out off' (by omega) heq

/-! ### Behavior of single `push` calls -/

theorem push_nil_chunk (d : FrameDecoder) : d.push [] = .ok ([], d) := rfl

theorem push_incomplete (body c : List Byte) (j k : Nat)
    (hlen : body.length ≤ maxFrameLength) (hc : c ≠ [])
    (hjk : (encodeFrame body).take j ++ c = (encodeFrame body).take k)
    (hk : k < (encodeFrame body).length) :
    FrameDecoder.push ⟨(encodeFrame body).take j, 0⟩ c =
      .ok ([], ⟨(encodeFrame body).take k, 0⟩) := by
  have hcne : ¬c.length = 0 := by simpa using hc
  have hklen : ((encodeFrame body).take k).length = k := by
    rw [List.length_take]
    exact min_eq_left (le_of_lt hk)
  have hkpos : 0 < k := by
    have : 0 < ((encodeFrame body).take j ++ c).length := by
      simp only [List.length_append]
      have : 0 < c.length := List.length_pos.mpr hc
      omega
    rw [hjk, hklen] at this
    exact this
  unfold FrameDecoder.push
  rw [if_neg hcne]
  simp only [List.drop_zero]
  rw [hjk, pushLoop_stop_incomplete _ body k hlen hk]
  simp only []
  rw [if_neg (by omega)]

theorem push_completing (body c : List Byte) (j : Nat)
    (hlen : body.length ≤ maxFrameLength) (hc : c ≠ [])
    (hjc : (encodeFrame body).take j ++ c = encodeFrame body) :
    FrameDecoder.push ⟨(encodeFrame body).take j, 0⟩ c = .ok ([body], ⟨[], 0⟩) := by
  have hcne : ¬c.length = 0 := by simpa using hc
  unfold FrameDecoder.push
  rw [if_neg hcne]
  simp only [List.drop_zero]
  rw [hjc, pushLoop_single _ body [] hlen (by rw [encodeFrame_length]; omega)]
  simp only [List.reverse_cons, List.reverse_nil, List.nil_append]
  simp

theorem push_oversized_header (d : FrameDecoder) (c : List Byte) (hc : c ≠ [])
    (h4 : 4 ≤ (d.buffer.drop d.offset ++ c).length)
    (hbig : readUint32 (d.buffer.drop d.offset ++ c) 0 > maxFrameLength) :
    d.push c =
      .error ("Frame too large: " ++
        Nat.repr (readUint32 (d.buffer.drop d.offset ++ c) 0) ++ " bytes") := by
  have hcne : ¬c.length = 0 := by simpa using hc
  unfold FrameDecoder.push
  rw [if_neg hcne]
  simp only []
  rw [pushLoop_oversized _ _ 0 [] (by omega) (by omega) hbig]

/-- The retained-buffer invariant of a decoder state: fewer than 4 unconsumed
bytes remain, or the unconsumed byte count is below 4 plus the declared length
of the next frame; and a fully consumed buffer has been reset to empty. -/
def FrameDecoder.Inv (d : FrameDecoder) : Prop :=
  (d.buffer.length - d.offset < 4 ∨
    d.buffer.length - d.offset < 4 + readUint32 d.buffer d.offset) ∧
  (d.offset = d.buffer.length → d.buffer = [] ∧ d.offset = 0)

theorem init_inv : FrameDecoder.Inv FrameDecoder.init :=
  ⟨Or.inl (by simp [FrameDecoder.init]), fun _ => ⟨rfl, rfl⟩⟩

/-- C9: after every `FrameDecoder.push` call that returns normally, the
retained buffer contains no complete undecoded frame — fewer than 4
unconsumed bytes remain, or the unconsumed byte count is less than 4 plus the
declared length of the next frame — and a fully consumed buffer has been
reset to an empty array with read offset 0.  Stated as preservation of
`FrameDecoder.Inv`, which holds of a fresh decoder (`init_inv`), so it holds
of every reachable decoder state. -/
theorem push_preserves_inv (d : FrameDecoder) (c : List Byte) (out : List (List Byte))
    (d' : FrameDecoder) (hinv : d.Inv) (h : d.push c = .ok (out, d')) : d'.Inv := by
  by_cases hc : c.length = 0
  · rw [FrameDecoder.push, if_pos hc] at h
    injection h with h
    injection h with h1 h2
    exact h2 ▸ hinv
  · rw [FrameDecoder.push, if_neg hc] at h
    simp only [] at h
    rcases hL : pushLoop (d.buffer.drop d.offset ++ c).length (d.buffer.drop d.offset ++ c) 0 []
      with e | p
    · rw [hL] at h
      exact absurd h (by simp)
    · obtain ⟨o, off⟩ := p
      rw [hL] at h
      simp only [] at h
      by_cases hoff : off = (d.buffer.drop d.offset ++ c).length
      · rw [if_pos hoff] at h
        simp only [Except.ok.injEq, Prod.mk.injEq] at h
        rw [← h.2]
        exact ⟨Or.inl (by simp [readUint32]), fun _ => ⟨rfl, rfl⟩⟩
      · rw [if_neg hoff] at h
        simp only [Except.ok.injEq, Prod.mk.injEq] at h
        have hinv' := pushLoop_inv (d.buffer.drop d.offset ++ c).length
          (d.buffer.drop d.offset ++ c) 0 [] o off (by omega) hL
        rw [← h.2]
        constructor
        · exact hinv'
        · intro habs
          simp only [] at habs
          exact absurd habs hoff

/-! ### Claim theorems for the framing codec -/

/-- C9: after every `FrameDecoder.push` call on a reachable decoder state
(one satisfying the retained-buffer invariant, as a fresh decoder does by
`init_inv`) that returns normally, the resulting state again satisfies
`FrameDecoder.Inv`: no complete undecoded frame is retained, and a fully
consumed buffer has been reset to empty with offset 0. -/
theorem push_keeps_no_complete_frame (d : FrameDecoder) (c : List Byte)
    (out : List (List Byte)) (d' : FrameDecoder) (hinv : d.Inv)
    (h : d.push c = .ok (out, d')) : d'.Inv :=
  push_preserves_inv d c out d' hinv h

theorem push_keeps_no_complete_frame_witness :
    FrameDecoder.Inv FrameDecoder.init ∧
      FrameDecoder.push FrameDecoder.init [0, 0, 0, 5, 65] =
        .ok ([], ⟨[0, 0, 0, 5, 65], 0⟩) ∧
      FrameDecoder.Inv ⟨[0, 0, 0, 5, 65], 0⟩ :=
  ⟨init_inv, by rfl,
    push_keeps_no_complete_frame FrameDecoder.init [0, 0, 0, 5, 65] [] ⟨[0, 0, 0, 5, 65], 0⟩
      init_inv (by rfl)⟩

/-- C1 (amended): for every JSON-serializable value whose serialized payload
is at most 104,857,600 bytes, feeding `encodeFrame` of it to a fresh
`FrameDecoder` in a single `push` call returns exactly that one payload, and
the drained decoder is reset to its initial state.  (The un-amended claim,
with no size bound, is refuted by `roundtrip_fails_on_oversized_payload`.) -/
theorem decode_single_push_roundtrip (body : List Byte)
    (hlen : body.length ≤ maxFrameLength) :
    FrameDecoder.init.push (encodeFrame body) = .ok ([body], FrameDecoder.init) := by
  have hne : encodeFrame body ≠ [] := by
    apply List.ne_nil_of_length_pos
    rw [encodeFrame_length]
    omega
  exact push_completing body (encodeFrame body) 0 hlen hne (by simp)

/-- Serialized payload bytes of the spec's concrete scenario value
`{"hello":"world","n":1}`. -/
def helloPayload : List Byte :=
  [123, 34, 104, 101, 108, 108, 111, 34, 58, 34, 119, 111, 114, 108, 100, 34, 44, 34, 110,
    34, 58, 49, 125]

theorem decode_single_push_roundtrip_witness :
    helloPayload.length ≤ maxFrameLength ∧
      FrameDecoder.init.push (encodeFrame helloPayload) = .ok ([helloPayload], FrameDecoder.init) :=
  ⟨by decide, decode_single_push_roundtrip helloPayload (by decide)⟩

/-- C1 counterexample: a value whose serialization is 104,857,601 bytes (one
byte over the 100 MiB ceiling) encodes fine, but pushing its encoded frame to
a fresh decoder throws the fatal framing error instead of returning the
value, so the round-trip claim fails without the size bound. -/
theorem roundtrip_fails_on_oversized_payload :
    FrameDecoder.init.push (encodeFrame (List.replicate 104857601 32)) =
      .error ("Frame too large: " ++ Nat.repr 104857601 ++ " bytes") := by
  have hE : FrameDecoder.init.buffer.drop FrameDecoder.init.offset ++
      encodeFrame (List.replicate 104857601 32) = encodeFrame (List.replicate 104857601 32) :=
    List.nil_append _
  have hframe : encodeFrame (List.replicate 104857601 32) =
      be32 104857601 ++ List.replicate 104857601 32 := by
    rw [encodeFrame, List.length_replicate]
  have hread : readUint32 (encodeFrame (List.replicate 104857601 32)) 0 = 104857601 := by
    rw [hframe]
    exact readUint32_be32_append 104857601 _ (by norm_num)
  have h := push_oversized_header FrameDecoder.init (encodeFrame (List.replicate 104857601 32))
    (by
      apply List.ne_nil_of_length_pos
      rw [encodeFrame_length, List.length_replicate]
      omega)
    (by
      rw [hE, encodeFrame_length, List.length_replicate]
      omega)
    (by
      rw [hE, hread]
      norm_num [maxFrameLength])
  rw [hE, hread] at h
  exact h

/-- C4: whenever a `push` call delivers bytes that make at least 4 unconsumed
bytes available and the 4-byte big-endian length prefix at the read position
declares a payload length strictly greater than 104,857,600 bytes, `push`
throws the fatal framing error — before, and regardless of whether, the
declared payload bytes have arrived (the trailing bytes of the chunk are
arbitrary and may be empty). -/
theorem push_fails_on_oversized_declared_length (d : FrameDecoder) (c : List Byte) (L : Nat)
    (hc : c ≠ []) (h4 : 4 ≤ (d.buffer.drop d.offset ++ c).length)
    (hL : readUint32 (d.buffer.drop d.offset ++ c) 0 = L) (hbig : L > 104857600) :
    d.push c = .error ("Frame too large: " ++ Nat.repr L ++ " bytes") := by
  subst hL
  exact push_oversized_header d c hc h4 (by simpa [maxFrameLength] using hbig)

theorem push_fails_on_oversized_declared_length_witness :
    ([6, 64, 0, 1] : List Byte) ≠ [] ∧
      4 ≤ (FrameDecoder.init.buffer.drop FrameDecoder.init.offset ++ [6, 64, 0, 1]).length ∧
      readUint32 (FrameDecoder.init.buffer.drop FrameDecoder.init.offset ++ [6, 64, 0, 1]) 0 =
        104857601 ∧
      FrameDecoder.push FrameDecoder.init [6, 64, 0, 1] =
        .error ("Frame too large: " ++ Nat.repr 104857601 ++ " bytes") :=
  ⟨by decide, by decide, by decide,
    push_fails_on_oversized_declared_length FrameDecoder.init [6, 64, 0, 1] 104857601
      (by decide) (by decide) (by decide) (by decide)⟩

/-! ### Chunk-boundary independence -/

/-- Spec-side description of the per-push outputs when the bytes of one
encoded frame (of total length `L`, payload `body`) are fed in contiguous
slices: starting at cumulative offset `j`, a push returns `[body]` exactly
when it delivers the frame's last byte (`j < L ≤ j + p.length`) and the
empty list otherwise. -/
def expectedOutputs (L : Nat) (body : List Byte) : Nat → List (List Byte) → List (List (List Byte))
  | _, [] => []
  | j, p :: rest =>
    (if j < L ∧ L ≤ j + p.length then [body] else []) ::
      expectedOutputs L body (j + p.length) rest

theorem pushMany_all_nil (parts : List (List Byte)) (d : FrameDecoder)
    (h : ∀ q ∈ parts, q = []) :
    pushMany d parts = .ok (parts.map (fun _ => []), d) := by
  induction parts with
  | nil => rfl
  | cons p rest ih =>
    have hp : p = [] := h p (by simp)
    subst hp
    simp only [pushMany, push_nil_chunk]
    rw [ih fun q hq => h q (by simp [hq])]
    rfl

theorem expectedOutputs_after_end (L : Nat) (body : List Byte) (parts : List (List Byte)) :
    ∀ j, L ≤ j → expectedOutputs L body j parts = parts.map (fun _ => []) := by
  induction parts with
  | nil => intro j _; rfl
  | cons p rest ih =>
    intro j hj
    simp only [expectedOutputs, List.map_cons]
    rw [if_neg (by omega), ih (j + p.length) (by omega)]

theorem expectedOutputs_flatten (L : Nat) (body : List Byte) (parts : List (List Byte)) :
    ∀ j, j < L → j + (parts.map List.length).sum = L →
      (expectedOutputs L body j parts).flatten = [body] := by
  induction parts with
  | nil =>
    intro j hj hsum
    exfalso
    simp at hsum
    omega
  | cons p rest ih =>
    intro j hj hsum
    simp only [List.map_cons, List.sum_cons] at hsum
    by_cases hfull : L ≤ j + p.length
    · simp only [expectedOutputs,
        if_pos (show j < L ∧ L ≤ j + p.length from ⟨hj, hfull⟩)]
      rw [expectedOutputs_after_end L body rest (j + p.length) hfull]
      simp
    · simp only [expectedOutputs, if_neg (by omega : ¬(j < L ∧ L ≤ j + p.length))]
      rw [List.flatten_cons, List.nil_append]
      exact ih (j + p.length) (by omega) (by omega)

theorem pushMany_split (body : List Byte) (hlen : body.length ≤ maxFrameLength)
    (parts : List (List Byte)) :
    ∀ j : Nat, j < (encodeFrame body).length →
      parts.flatten = (encodeFrame body).drop j →
      pushMany ⟨(encodeFrame body).take j, 0⟩ parts =
        .ok (expectedOutputs (encodeFrame body).length body j parts, FrameDecoder.init) := by
  induction parts with
  | nil =>
    intro j hj hflat
    exfalso
    have hne : (encodeFrame body).drop j ≠ [] := by
      apply List.ne_nil_of_length_pos
      rw [List.length_drop]
      omega
    exact hne hflat.symm
  | cons p rest ih =>
    intro j hj hflat
    have hlensum : p.length + rest.flatten.length = (encodeFrame body).length - j := by
      have := congrArg List.length hflat
      simpa [List.length_append, List.length_drop] using this
    have hplen : j + p.length ≤ (encodeFrame body).length := by omega
    have hp : (encodeFrame body).take j ++ p = (encodeFrame body).take (j + p.length) := by
      rw [List.take_add]
      congr 1
      rw [← hflat, List.flatten_cons]
      exact (List.take_left p rest.flatten).symm
    by_cases hpnil : p = []
    · subst hpnil
      simp only [pushMany, push_nil_chunk]
      have hflat' : rest.flatten = (encodeFrame body).drop j := by simpa using hflat
      rw [ih j hj hflat']
      simp only [expectedOutputs]
      rw [if_neg (by simp only [List.length_nil]; omega : ¬(j < (encodeFrame body).length ∧
        (encodeFrame body).length ≤ j + List.length []))]
      rfl
    · by_cases hfull : j + p.length = (encodeFrame body).length
      · have hpc : (encodeFrame body).take j ++ p = encodeFrame body := by
          rw [hp, hfull, List.take_length]
        simp only [pushMany]
        rw [push_completing body p j hlen hpnil hpc]
        simp only []
        have hrestnil : ∀ q ∈ rest, q = [] := by
          rw [← List.flatten_eq_nil_iff]
          have : rest.flatten.length = 0 := by omega
          exact List.length_eq_zero.mp this
        rw [pushMany_all_nil rest ⟨[], 0⟩ hrestnil]
        simp only [expectedOutputs]
        rw [if_pos (show j < (encodeFrame body).length ∧
              (encodeFrame body).length ≤ j + p.length from ⟨hj, by omega⟩),
          expectedOutputs_after_end (encodeFrame body).length body rest (j + p.length) (by omega)]
        rfl
      · have hlt : j + p.length < (encodeFrame body).length := by omega
        simp only [pushMany]
        rw [push_incomplete body p j (j + p.length) hlen hpnil hp hlt]
        simp only []
        have hflat' : rest.flatten = (encodeFrame body).drop (j + p.length) := by
          have h1 : rest.flatten = ((encodeFrame body).drop j).drop p.length := by
            rw [← hflat, List.flatten_cons]
            exact (List.drop_left p rest.flatten).symm
          rw [h1, List.drop_drop]
        rw [ih (j + p.length) hlt hflat']
        simp only [expectedOutputs]
        rw [if_neg (by omega : ¬(j < (encodeFrame body).length ∧
          (encodeFrame body).length ≤ j + p.length))]

/-- C2: for every frame and every way of splitting its encoded bytes into
contiguous slices fed to `push` in separate calls (including splits inside
the 4-byte length prefix), the outputs are described by `expectedOutputs`:
every push before the one delivering the frame's last byte returns `[]`, the
delivering push returns the payload, the concatenated outputs equal the
one-push decode, and the final decoder state matches the fresh one. -/
theorem chunked_pushes_match_single_push (body : List Byte) (parts : List (List Byte))
    (hlen : body.length ≤ maxFrameLength) (hsplit : parts.flatten = encodeFrame body) :
    pushMany FrameDecoder.init parts =
        .ok (expectedOutputs (encodeFrame body).length body 0 parts, FrameDecoder.init) ∧
      (expectedOutputs (encodeFrame body).length body 0 parts).flatten = [body] ∧
      FrameDecoder.init.push (encodeFrame body) = .ok ([body], FrameDecoder.init) := by
  have hLpos : 0 < (encodeFrame body).length := by
    rw [encodeFrame_length]
    omega
  refine ⟨?_, ?_, ?_⟩
  · exact pushMany_split body hlen parts 0 hLpos (by simpa using hsplit)
  · have hsum := congrArg List.length hsplit
    rw [List.length_flatten] at hsum
    exact expectedOutputs_flatten _ body parts 0 hLpos (by omega)
  · exact push_completing body (encodeFrame body) 0 hlen
      (List.ne_nil_of_length_pos hLpos) (by simp)

/-- The spec's concrete split scenario: the encoded frame of
`{"hello":"world","n":1}` split after byte 2 (inside the length prefix) and
after byte 7. -/
def splitParts : List (List Byte) :=
  [[0, 0], [0, 23, 123, 34, 104],
    [101, 108, 108, 111, 34, 58, 34, 119, 111, 114, 108, 100, 34, 44, 34, 110, 34, 58, 49, 125]]

theorem chunked_pushes_match_single_push_witness :
    helloPayload.length ≤ maxFrameLength ∧
      splitParts.flatten = encodeFrame helloPayload ∧
      (pushMany FrameDecoder.init splitParts =
          .ok (expectedOutputs (encodeFrame helloPayload).length helloPayload 0 splitParts,
            FrameDecoder.init) ∧
        (expectedOutputs (encodeFrame helloPayload).length helloPayload 0 splitParts).flatten =
          [helloPayload] ∧
        FrameDecoder.init.push (encodeFrame helloPayload) =
          .ok ([helloPayload], FrameDecoder.init)) :=
  ⟨by decide, by decide,
    chunked_pushes_match_single_push helloPayload splitParts (by decide) (by decide)⟩

/-! ### JavaScript strings, messages, and the client-side delta buffer -/

/-- A JavaScript string, as a list of characters. -/
abbrev Str := List Char

/-- A `{role, content}` chat turn (`ChatMessage` in `src/protocol.ts`). -/
structure ChatMessage where
  role : Str
  content : Str
deriving DecidableEq

/-- Insertion-ordered map lookup (`Map.get`), over an association list. -/
def lookupMap {α : Type} : List (Str × α) → Str → Option α
  | [], _ => none
  | (k', v) :: rest, k => if k' = k then some v else lookupMap rest k

/-- Insertion-ordered map update (`Map.set`): replaces in place, else
appends. -/
def setMap {α : Type} : List (Str × α) → Str → α → List (Str × α)
  | [], k, v => [(k, v)]
  | (k', v') :: rest, k, v =>
    if k' = k then (k, v) :: rest else (k', v') :: setMap rest k v

/-- `Map.set` for the client's `deltasByIndex : Map<number, string>`. -/
def setIdx : List (Nat × Str) → Nat → Str → List (Nat × Str)
  | [], k, v => [(k, v)]
  | (k', v') :: rest, k, v =>
    if k' = k then (k, v) :: rest else (k', v') :: setIdx rest k v

/-- The client's reassembly of a delta buffer:
`[...deltasByIndex.entries()].sort((a, b) => a[0] - b[0]).map(([, d]) => d).join("")`
from `sendAndWaitComplete` in `src/runtime/session-client.ts`. -/
def sortedJoin (entries : List (Nat × Str)) : Str :=
  ((List.insertionSort (fun a b : Nat × Str => a.1 ≤ b.1) entries).map Prod.snd).flatten

/-- Messages pulled from the transport iterator, as inspected by
`sendAndWaitComplete`: a `session/stream` delta (whose `index` and `delta`
fields may be missing or of the wrong type, hence `Option`), a
`session/complete`, or anything else (skipped). -/
inductive ClientInMsg where
  | stream (sessionId : Str) (index : Option Nat) (delta : Option Str)
  | complete (sessionId : Str) (message : ChatMessage) (history : List ChatMessage)
  | other
deriving DecidableEq

/-- The `{msg, combined}` value returned by `sendAndWaitComplete`. -/
structure CompleteResult where
  message : ChatMessage
  history : List ChatMessage
  combined : Str
deriving DecidableEq

/-- The receive loop of `sendAndWaitComplete`: skip non-matching messages,
record matching deltas into the index-keyed buffer (defaulting a missing
index to the buffer's size and a missing delta to `""`), and return on the
matching `session/complete` with the buffer sorted by index and joined.
`none` models the iterator ending before the terminal message (a thrown
error in the source).  The initial `transport.send` of the `session/send`
message is modeled separately (`Transport.send`). -/
def receiveLoop (sessionId : Str) : List (Nat × Str) → List ClientInMsg → Option CompleteResult
  | _, [] => none
  | acc, m :: rest =>
    match m with
    | .stream sid idx delta =>
      if sid = sessionId then
        receiveLoop sessionId (setIdx acc (idx.getD acc.length) (delta.getD [])) rest
      else receiveLoop sessionId acc rest
    | .complete sid msg hist =>
      if sid = sessionId then some ⟨msg, hist, sortedJoin acc⟩
      else receiveLoop sessionId acc rest
    | .other => receiveLoop sessionId acc rest

/-! ### Sorting the delta buffer by index -/

theorem setIdx_append_of_not_mem (acc : List (Nat × Str)) (i : Nat) (d : Str)
    (h : i ∉ acc.map Prod.fst) : setIdx acc i d = acc ++ [(i, d)] := by
  induction acc with
  | nil => rfl
  | cons p rest ih =>
    obtain ⟨k', v'⟩ := p
    simp only [List.map_cons, List.mem_cons] at h
    push_neg at h
    simp only [setIdx]
    rw [if_neg (fun heq => h.1 heq.symm), ih h.2]
    rfl

theorem foldl_setIdx_eq_append :
    ∀ (ps acc : List (Nat × Str)), (ps.map Prod.fst).Nodup →
      (∀ i ∈ ps.map Prod.fst, i ∉ acc.map Prod.fst) →
      ps.foldl (fun a p => setIdx a p.1 p.2) acc = acc ++ ps := by
  intro ps
  induction ps with
  | nil =>
    intro acc _ _
    simp
  | cons p rest ih =>
    intro acc hnd hdisj
    simp only [List.map_cons, List.nodup_cons] at hnd
    simp only [List.foldl_cons]
    rw [setIdx_append_of_not_mem acc p.1 p.2 (hdisj p.1 (by simp))]
    rw [ih (acc ++ [(p.1, p.2)]) hnd.2 ?_]
    · simp
    · intro i hi
      simp only [List.map_append, List.mem_append]
      push_neg
      refine ⟨hdisj i (by simp [hi]), ?_⟩
      simp only [List.map_cons, List.map_nil, List.mem_singleton]
      intro heq
      exact hnd.1 (heq ▸ hi)

theorem sortedJoin_perm_canonical (ts : List Str) (ps : List (Nat × Str))
    (hperm : ps.Perm ((List.range ts.length).zip ts)) :
    sortedJoin ps = ts.flatten := by
  haveI htot : IsTotal (Nat × Str) (fun a b => a.1 ≤ b.1) := ⟨fun a b => Nat.le_total a.1 b.1⟩
  haveI htr : IsTrans (Nat × Str) (fun a b => a.1 ≤ b.1) :=
    ⟨fun _ _ _ h1 h2 => Nat.le_trans h1 h2⟩
  haveI : IsAntisymm (Nat × Str) (fun a b : Nat × Str => a.1 < b.1) :=
    ⟨fun _ _ h1 h2 => absurd h2 (Nat.lt_asymm h1)⟩
  have hkeys : ((List.range ts.length).zip ts).map Prod.fst = List.range ts.length :=
    List.map_fst_zip _ _ (by simp)
  have hpermSort :
      (List.insertionSort (fun a b : Nat × Str => a.1 ≤ b.1) ps).Perm
        ((List.range ts.length).zip ts) :=
    (List.perm_insertionSort _ ps).trans hperm
  have hcanSorted : ((List.range ts.length).zip ts).Pairwise (fun a b => a.1 < b.1) := by
    have hr := List.pairwise_lt_range ts.length
    rw [← hkeys] at hr
    exact List.pairwise_map.mp hr
  have hnodupKeys :
      ((List.insertionSort (fun a b : Nat × Str => a.1 ≤ b.1) ps).map Prod.fst).Nodup := by
    have hp : ((List.insertionSort (fun a b : Nat × Str => a.1 ≤ b.1) ps).map Prod.fst).Perm
        (List.range ts.length) := by
      rw [← hkeys]
      exact hpermSort.map Prod.fst
    exact hp.nodup_iff.mpr (List.nodup_range ts.length)
  have hne : (List.insertionSort (fun a b : Nat × Str => a.1 ≤ b.1) ps).Pairwise
      (fun a b => a.1 ≠ b.1) :=
    List.pairwise_map.mp hnodupKeys
  have hltSorted : (List.insertionSort (fun a b : Nat × Str => a.1 ≤ b.1) ps).Pairwise
      (fun a b => a.1 < b.1) := by
    have hle := List.sorted_insertionSort (fun a b : Nat × Str => a.1 ≤ b.1) ps
    exact (hle.and hne).imp fun h => lt_of_le_of_ne h.1 h.2
  have heq : List.insertionSort (fun a b : Nat × Str => a.1 ≤ b.1) ps =
      (List.range ts.length).zip ts :=
    List.eq_of_perm_of_sorted hpermSort hltSorted hcanSorted
  unfold sortedJoin
  rw [heq, List.map_snd_zip _ _ (by simp)]

theorem receiveLoop_stream_pairs (s : Str) :
    ∀ (ps acc : List (Nat × Str)) (rest : List ClientInMsg),
      receiveLoop s acc ((ps.map fun p => ClientInMsg.stream s (some p.1) (some p.2)) ++ rest) =
        receiveLoop s (ps.foldl (fun a p => setIdx a p.1 p.2) acc) rest := by
  intro ps
  induction ps with
  | nil =>
    intro acc rest
    simp
  | cons p psr ih =>
    intro acc rest
    simp only [List.map_cons, List.cons_append, receiveLoop]
    simp only [if_true, Option.getD_some, List.foldl_cons]
    exact ih _ rest

/-- C3: for every session id, every list of `N` stream-delta texts carrying
indices `0..N-1` and every permutation in which those deltas are delivered
before the matching `session/complete`, the receive loop of
`sendAndWaitComplete` returns the complete message with the combined string
equal to the concatenation of the delta texts in ascending index order —
independent of the delivery permutation. -/
theorem delta_reassembly_permutation_invariant (s : Str) (ts : List Str)
    (ps : List (Nat × Str)) (m : ChatMessage) (hist : List ChatMessage)
    (hperm : ps.Perm ((List.range ts.length).zip ts)) :
    receiveLoop s []
        ((ps.map fun p => ClientInMsg.stream s (some p.1) (some p.2)) ++
          [ClientInMsg.complete s m hist]) =
      some ⟨m, hist, ts.flatten⟩ := by
  rw [receiveLoop_stream_pairs]
  have hkeysnd : (ps.map Prod.fst).Nodup := by
    have hp : (ps.map Prod.fst).Perm (List.range ts.length) := by
      rw [← List.map_fst_zip (List.range ts.length) ts (by simp)]
      exact hperm.map Prod.fst
    exact hp.nodup_iff.mpr (List.nodup_range ts.length)
  rw [foldl_setIdx_eq_append ps [] hkeysnd (by simp)]
  simp only [List.nil_append, receiveLoop, if_true]
  rw [sortedJoin_perm_canonical ts ps hperm]

theorem delta_reassembly_permutation_invariant_witness :
    ([(2, "e".data), (0, "ab".data), (1, "cd".data)] : List (Nat × Str)).Perm
        ((List.range (["ab".data, "cd".data, "e".data] : List Str).length).zip
          ["ab".data, "cd".data, "e".data]) ∧
      receiveLoop "s1".data []
          (([(2, "e".data), (0, "ab".data), (1, "cd".data)].map
            fun p => ClientInMsg.stream "s1".data (some p.1) (some p.2)) ++
            [ClientInMsg.complete "s1".data ⟨"assistant".data, "abcde".data⟩ []]) =
        some ⟨⟨"assistant".data, "abcde".data⟩, [],
          (["ab".data, "cd".data, "e".data] : List Str).flatten⟩ :=
  ⟨by decide,
    delta_reassembly_permutation_invariant "s1".data ["ab".data, "cd".data, "e".data]
      [(2, "e".data), (0, "ab".data), (1, "cd".data)] ⟨"assistant".data, "abcde".data⟩ []
      (by decide)⟩

/-! ### The mock agent (`bin/mock-agent.mjs`) -/

/-- `chunkString`'s slicing loop: for `i` from the current value while fuel
remains (`fuel = parts - i`), slice `[i*size, min(len, (i+1)*size))` and stop
early once `start ≥ len`. -/
def chunkLoop (text : Str) (size : Nat) : Nat → Nat → List Str
  | 0, _ => []
  | fuel + 1, i =>
    if i * size ≥ text.length then []
    else
      (text.drop (i * size)).take (min text.length ((i + 1) * size) - i * size) ::
        chunkLoop text size fuel (i + 1)

/-- `chunkString(text, parts)` from the mock agent: split `text` into at most
`parts` slices of size `ceil(len / parts)`; `parts ≤ 1` returns the whole
text, and an empty slice list falls back to `[""]`. -/
def chunkString (text : Str) (parts : Nat) : List Str :=
  if parts ≤ 1 then [text]
  else
    let size := (text.length + parts - 1) / parts
    let chunks := chunkLoop text size parts 0
    if chunks.length > 0 then chunks else [[]]

/-- The deterministic reply text of the mock agent's `session/send` handler:
`` `MockAgent response #${session.turns}: ${content}` ``. -/
def mockResponse (n : Nat) (c : Str) : Str :=
  "MockAgent response #".data ++ (Nat.repr n).data ++ ": ".data ++ c

/-- A mock-agent session record: `{ history, turns }`. -/
structure Session where
  history : List ChatMessage
  turns : Nat
deriving DecidableEq

/-- The mutable fields of the `TChat` objects built by `makeTChat`; the
constant capability fields (`location`, `persistence`, `canRead`, `canPost`,
`channelType`, the fixed `extra`/`_rawRest` strings) are never read back or
mutated by any handler and are omitted. -/
structure TChat where
  id : Str
  title : Str
  providerId : Str
  status : Str
  createdAt : Str
  updatedAt : Str
deriving DecidableEq

/-- A mock-agent chat record: `{ chat, prompt, turns, cancelled, messageId,
status }`. -/
structure ChatEntry where
  chat : TChat
  prompt : Str
  turns : Nat
  cancelled : Bool
  messageId : Str
  status : Str
deriving DecidableEq

/-- The mock agent's CLI/env configuration (`parseArgs`). -/
structure MockAgentConfig where
  chunks : Nat
  emitToolCalls : Bool
  streaming : Bool
deriving DecidableEq

/-- The mock agent's process-wide mutable state: the `sessions` and `chats`
maps (insertion-ordered), the chat creation order, and the id counters. -/
structure AgentState where
  sessions : List (Str × Session)
  chats : List (Str × ChatEntry)
  chatOrder : List Str
  sessionCounter : Nat
  chatCounter : Nat
deriving DecidableEq

/-- Messages written by the mock agent (`writeMessage` payloads), restricted
to the fields the handlers populate. -/
inductive OutMsg where
  | ready (pid : Nat) (version : Nat)
  | sessionStarted (sessionId : Str)
  | toolCall (sessionId : Str) (name : Str) (turn : Nat) (inputLength : Nat)
  | sessionStream (sessionId : Str) (index : Nat) (delta : Str)
  | sessionComplete (sessionId : Str) (message : ChatMessage) (history : List ChatMessage)
  | chatsCreated (chat : TChat)
  | chatsListResult (chats : List TChat) (nextCursor : Option Str)
  | chatsGetResult (chat : TChat)
  | chatsCancelResult (ok : Bool)
  | chatsError (chatId : Str) (error : Str)
  | chatStarted (chatId : Str) (timestamp : Str)
  | messageDelta (chatId : Str) (timestamp : Str) (messageId : Str) (index : Nat) (delta : Str)
  | chatCompleted (chatId : Str) (timestamp : Str) (chat : TChat)
  | chatCancelled (chatId : Str) (timestamp : Str) (chat : TChat)
deriving DecidableEq

/-- The `session/stream` messages emitted by the streaming loop, with
0-based ascending indices. -/
def streamDeltas (sessionId : Str) : Nat → List Str → List OutMsg
  | _, [] => []
  | i, d :: rest => OutMsg.sessionStream sessionId i d :: streamDeltas sessionId (i + 1) rest

/-- The mock agent's `session/send` handler: create the session lazily,
append the user turn, bump `turns`, build the deterministic reply, emit the
optional tool-call placeholder and the stream deltas only when streaming is
enabled, append the assistant turn, and emit one `session/complete` carrying
a snapshot of the accumulated history. -/
def handleSessionSend (cfg : MockAgentConfig) (st : AgentState) (sessionId? : Option Str)
    (content? : Option Str) : AgentState × List OutMsg :=
  let idAndCounter :=
    match sessionId? with
    | some sid => (sid, st.sessionCounter)
    | none => ("session-".data ++ (Nat.repr (st.sessionCounter + 1)).data,
        st.sessionCounter + 1)
  let sessionId := idAndCounter.1
  let content := content?.getD []
  let session := (lookupMap st.sessions sessionId).getD ⟨[], 0⟩
  let history1 := session.history ++ [⟨"user".data, content⟩]
  let turns' := session.turns + 1
  let assistantContent := mockResponse turns' content
  let deltas := chunkString assistantContent cfg.chunks
  let assistantMessage : ChatMessage := ⟨"assistant".data, assistantContent⟩
  let history2 := history1 ++ [assistantMessage]
  let st' := { st with
    sessions := setMap st.sessions sessionId ⟨history2, turns'⟩,
    sessionCounter := idAndCounter.2 }
  let toolMsgs :=
    if cfg.streaming && cfg.emitToolCalls then
      [OutMsg.toolCall sessionId "mock.tool".data turns' content.length]
    else []
  let streamMsgs := if cfg.streaming then streamDeltas sessionId 0 deltas else []
  (st', toolMsgs ++ streamMsgs ++ [OutMsg.sessionComplete sessionId assistantMessage history2])

/-- Process a sequence of `session/send` messages for one session id,
returning the final state and the outputs of the last send. -/
def runSends (cfg : MockAgentConfig) : AgentState → Str → List Str → AgentState × List OutMsg
  | st, _, [] => (st, [])
  | st, sid, [c] => handleSessionSend cfg st (some sid) (some c)
  | st, sid, c :: rest =>
    runSends cfg (handleSessionSend cfg st (some sid) (some c)).1 sid rest

/-- The interleaved user/assistant history produced by successive
`session/send` turns, starting from turn counter `t`. -/
def histFrom (t : Nat) : List Str → List ChatMessage
  | [] => []
  | c :: rest =>
    ⟨"user".data, c⟩ :: ⟨"assistant".data, mockResponse (t + 1) c⟩ :: histFrom (t + 1) rest

/-- JavaScript `String.prototype.trimEnd`: strip trailing whitespace. -/
def jsTrimEnd (s : Str) : Str :=
  (s.reverse.dropWhile (fun c => c.isWhitespace)).reverse

/-- `makeTChat` from the mock agent (mutable fields only). -/
def makeTChat (chatId : Str) (providerId? : Option Str) (title? : Option Str)
    (now : Str) : TChat :=
  { id := chatId
    title := title?.getD ("Mock Chat ".data ++ chatId)
    providerId := providerId?.getD "mock-agent".data
    status := "created".data
    createdAt := now
    updatedAt := now }

/-- `setChatStatus`: update the entry's `status` and mirror it (plus
`updatedAt`) into the embedded chat object. -/
def setChatStatus (e : ChatEntry) (status : Str) (now : Str) : ChatEntry :=
  { e with
    status := status
    chat := { e.chat with status := status, updatedAt := now } }

/-- The mock agent's `chats/cancel` handler: unknown ids get a `chats/error`;
otherwise the entry is marked `cancelled := true`, its status becomes
`"cancelled"`, and a `chats/cancelResult` is emitted. -/
def handleChatsCancel (st : AgentState) (chatId? : Option Str) (now : Str) :
    AgentState × List OutMsg :=
  let chatId := chatId?.getD []
  match lookupMap st.chats chatId with
  | none => (st, [OutMsg.chatsError chatId ("Unknown chat: ".data ++ chatId)])
  | some found =>
    let found' := setChatStatus { found with cancelled := true } "cancelled".data now
    ({ st with chats := setMap st.chats chatId found' }, [OutMsg.chatsCancelResult true])

/-- The delta-emission loop of `chats/subscribe`: before each delta the
cancelled flag is checked; if set, a single `chat.cancelled` is emitted and
the remaining deltas are aborted.  The flag is constant during the loop
because the agent dispatches messages sequentially. -/
def chatDeltaLoop (cancelled : Bool) (chatId now msgId : Str) (chat : TChat) :
    Nat → List Str → List OutMsg
  | _, [] => []
  | i, d :: rest =>
    if cancelled then [OutMsg.chatCancelled chatId now chat]
    else OutMsg.messageDelta chatId now msgId i d ::
      chatDeltaLoop cancelled chatId now msgId chat (i + 1) rest

/-- The mock agent's `chats/subscribe` handler: unknown ids get a
`chats/error`; an already-cancelled chat short-circuits to a single
`chat.cancelled` event; otherwise the turn runs: bump `turns`, set status
`"running"`, emit `chat.started`, stream the deltas (with the per-delta
cancellation check), and finish with `chat.completed` unless cancelled. -/
def handleChatsSubscribe (cfg : MockAgentConfig) (st : AgentState) (chatId? : Option Str)
    (now : Str) : AgentState × List OutMsg :=
  let chatId := chatId?.getD []
  match lookupMap st.chats chatId with
  | none => (st, [OutMsg.chatsError chatId ("Unknown chat: ".data ++ chatId)])
  | some found =>
    if found.status = "cancelled".data ∨ found.cancelled then
      (st, [OutMsg.chatCancelled chatId now found.chat])
    else
      let found1 := setChatStatus { found with turns := found.turns + 1 } "running".data now
      let assistantContent := jsTrimEnd
        ("MockTask response #".data ++ (Nat.repr found1.turns).data ++ ": ".data ++ found.prompt)
      let deltas := chunkString assistantContent cfg.chunks
      let messageId := "msg-".data ++ chatId ++ "-".data ++ (Nat.repr found1.turns).data
      let cancelledNow := decide (found1.status = "cancelled".data) || found1.cancelled
      let deltaEvts := chatDeltaLoop cancelledNow chatId now messageId found1.chat 0 deltas
      if found1.status = "cancelled".data ∨ found1.cancelled then
        ({ st with chats := setMap st.chats chatId found1 },
          OutMsg.chatStarted chatId now :: deltaEvts)
      else
        let found2 := setChatStatus found1 "completed".data now
        ({ st with chats := setMap st.chats chatId found2 },
          OutMsg.chatStarted chatId now :: deltaEvts ++ [OutMsg.chatCompleted chatId now found2.chat])

theorem lookup_setMap_self {α : Type} (m : List (Str × α)) (k : Str) (v : α) :
    lookupMap (setMap m k v) k = some v := by
  induction m with
  | nil => simp [setMap, lookupMap]
  | cons p rest ih =>
    obtain ⟨k', v'⟩ := p
    by_cases hk : k' = k
    · simp [setMap, hk, lookupMap]
    · simp only [setMap, hk, if_false, lookupMap]
      exact ih

/-- C7: for every chat id the agent has marked cancelled (a `chats/cancel`
for an existing chat was processed earlier), a subsequent `chats/subscribe`
for that id emits exactly one `chat.cancelled` event — and so no
`chat.started`, no `message.delta`, and no `chat.completed` — for that
subscription call. -/
theorem cancelled_subscribe_short_circuit (cfg : MockAgentConfig) (st : AgentState)
    (c : Str) (entry : ChatEntry) (now now' : Str)
    (hfound : lookupMap st.chats c = some entry) :
    (handleChatsSubscribe cfg (handleChatsCancel st (some c) now).1 (some c) now').2 =
      [OutMsg.chatCancelled c now'
        (setChatStatus { entry with cancelled := true } "cancelled".data now).chat] := by
  have hcancel : (handleChatsCancel st (some c) now).1 =
      { st with chats :=
          setMap st.chats c (setChatStatus { entry with cancelled := true } "cancelled".data now) } := by
    simp only [handleChatsCancel, Option.getD_some, hfound]
  rw [hcancel]
  simp only [handleChatsSubscribe, Option.getD_some]
  rw [lookup_setMap_self]
  simp [setChatStatus]

/-- A concrete chat entry as created by `chats/create`. -/
def mockChatEntry : ChatEntry :=
  { chat := makeTChat "c1".data none none "t0".data
    prompt := "hi".data
    turns := 0
    cancelled := false
    messageId := "msg-c1-1".data
    status := "created".data }

theorem cancelled_subscribe_short_circuit_witness :
    lookupMap ([("c1".data, mockChatEntry)] : List (Str × ChatEntry)) "c1".data =
        some mockChatEntry ∧
      (handleChatsSubscribe ⟨5, false, true⟩
          (handleChatsCancel ⟨[], [("c1".data, mockChatEntry)], ["c1".data], 0, 1⟩
            (some "c1".data) "t1".data).1
          (some "c1".data) "t2".data).2 =
        [OutMsg.chatCancelled "c1".data "t2".data
          (setChatStatus { mockChatEntry with cancelled := true } "cancelled".data
            "t1".data).chat] :=
  ⟨by decide,
    cancelled_subscribe_short_circuit ⟨5, false, true⟩
      ⟨[], [("c1".data, mockChatEntry)], ["c1".data], 0, 1⟩ "c1".data mockChatEntry
      "t1".data "t2".data (by decide)⟩

theorem histFrom_length : ∀ (cs : List Str) (t : Nat), (histFrom t cs).length = 2 * cs.length := by
  intro cs
  induction cs with
  | nil => intro t; rfl
  | cons c rest ih =>
    intro t
    simp only [histFrom, List.length_cons, ih, List.length_cons]
    omega

theorem histFrom_getD : ∀ (cs : List Str) (t k : Nat), k < cs.length →
    (histFrom t cs).getD (2 * k) ⟨[], []⟩ = ⟨"user".data, cs.getD k []⟩ ∧
      (histFrom t cs).getD (2 * k + 1) ⟨[], []⟩ =
        ⟨"assistant".data, mockResponse (t + k + 1) (cs.getD k [])⟩ := by
  intro cs
  induction cs with
  | nil =>
    intro t k h
    exact absurd h (by simp)
  | cons c rest ih =>
    intro t k h
    cases k with
    | zero => exact ⟨rfl, rfl⟩
    | succ k =>
      have e1 : 2 * (k + 1) = 2 * k + 1 + 1 := by omega
      have e2 : 2 * (k + 1) + 1 = 2 * k + 1 + 1 + 1 := by omega
      have hk : k < rest.length := by
        simp only [List.length_cons] at h
        omega
      have hrec := ih (t + 1) k hk
      have e3 : t + 1 + k + 1 = t + (k + 1) + 1 := by omega
      refine ⟨?_, ?_⟩
      · rw [e1]
        simp only [histFrom, List.getD_cons_succ, List.getD_cons_succ]
        exact hrec.1
      · rw [e2]
        simp only [histFrom, List.getD_cons_succ, List.getD_cons_succ]
        rw [← e3]
        exact hrec.2

theorem handleSessionSend_sessions (cfg : MockAgentConfig) (st : AgentState) (sid c : Str) :
    (handleSessionSend cfg st (some sid) (some c)).1.sessions =
      setMap st.sessions sid
        ⟨((lookupMap st.sessions sid).getD ⟨[], 0⟩).history ++
            [⟨"user".data, c⟩] ++
            [⟨"assistant".data,
              mockResponse (((lookupMap st.sessions sid).getD ⟨[], 0⟩).turns + 1) c⟩],
          ((lookupMap st.sessions sid).getD ⟨[], 0⟩).turns + 1⟩ := by
  simp only [handleSessionSend, Option.getD_some]

theorem handleSessionSend_outputs (cfg : MockAgentConfig) (st : AgentState) (sid c : Str) :
    ∃ pre,
      (handleSessionSend cfg st (some sid) (some c)).2 =
        pre ++ [OutMsg.sessionComplete sid
          ⟨"assistant".data, mockResponse (((lookupMap st.sessions sid).getD ⟨[], 0⟩).turns + 1) c⟩
          (((lookupMap st.sessions sid).getD ⟨[], 0⟩).history ++
            [⟨"user".data, c⟩] ++
            [⟨"assistant".data,
              mockResponse (((lookupMap st.sessions sid).getD ⟨[], 0⟩).turns + 1) c⟩])] := by
  refine ⟨(if cfg.streaming && cfg.emitToolCalls then
      [OutMsg.toolCall sid "mock.tool".data
        (((lookupMap st.sessions sid).getD ⟨[], 0⟩).turns + 1) c.length]
    else []) ++
    (if cfg.streaming then
      streamDeltas sid 0
        (chunkString (mockResponse (((lookupMap st.sessions sid).getD ⟨[], 0⟩).turns + 1) c)
          cfg.chunks)
    else []), ?_⟩
  simp only [handleSessionSend, Option.getD_some]

theorem runSends_last (cfg : MockAgentConfig) (sid : Str) :
    ∀ (contents : List Str) (st : AgentState), contents ≠ [] →
      ∃ pre lastC,
        contents.getLast? = some lastC ∧
        (runSends cfg st sid contents).2 =
          pre ++ [OutMsg.sessionComplete sid
            ⟨"assistant".data, mockResponse
              (((lookupMap st.sessions sid).getD ⟨[], 0⟩).turns + contents.length) lastC⟩
            (((lookupMap st.sessions sid).getD ⟨[], 0⟩).history ++
              histFrom ((lookupMap st.sessions sid).getD ⟨[], 0⟩).turns contents)] := by
  intro contents
  induction contents with
  | nil =>
    intro st h
    exact absurd rfl h
  | cons c rest ih =>
    intro st _
    cases rest with
    | nil =>
      obtain ⟨pre, hpre⟩ := handleSessionSend_outputs cfg st sid c
      refine ⟨pre, c, rfl, ?_⟩
      have hrun : runSends cfg st sid [c] = handleSessionSend cfg st (some sid) (some c) := rfl
      rw [hrun, hpre]
      simp [histFrom]
    | cons c2 rest2 =>
      have hrun : runSends cfg st sid (c :: c2 :: rest2) =
          runSends cfg (handleSessionSend cfg st (some sid) (some c)).1 sid (c2 :: rest2) := rfl
      obtain ⟨pre, lastC, hlast, hout⟩ :=
        ih (handleSessionSend cfg st (some sid) (some c)).1 (by simp)
      refine ⟨pre, lastC, ?_, ?_⟩
      · rw [List.getLast?_cons_cons]
        exact hlast
      · rw [hrun, hout]
        have hlkp : (lookupMap (handleSessionSend cfg st (some sid) (some c)).1.sessions
              sid).getD ⟨[], 0⟩ =
            ⟨((lookupMap st.sessions sid).getD ⟨[], 0⟩).history ++ [⟨"user".data, c⟩] ++
                [⟨"assistant".data,
                  mockResponse (((lookupMap st.sessions sid).getD ⟨[], 0⟩).turns + 1) c⟩],
              ((lookupMap st.sessions sid).getD ⟨[], 0⟩).turns + 1⟩ := by
          rw [handleSessionSend_sessions, lookup_setMap_self]
          rfl
        rw [hlkp]
        have harith : ((lookupMap st.sessions sid).getD ⟨[], 0⟩).turns + 1 +
              (c2 :: rest2).length =
            ((lookupMap st.sessions sid).getD ⟨[], 0⟩).turns + (c :: c2 :: rest2).length := by
          simp only [List.length_cons]
          omega
        have hhist : (((lookupMap st.sessions sid).getD ⟨[], 0⟩).history ++
              [(⟨"user".data, c⟩ : ChatMessage)] ++
              [(⟨"assistant".data,
                mockResponse (((lookupMap st.sessions sid).getD ⟨[], 0⟩).turns + 1) c⟩ :
                  ChatMessage)]) ++
              histFrom (((lookupMap st.sessions sid).getD ⟨[], 0⟩).turns + 1) (c2 :: rest2) =
            ((lookupMap st.sessions sid).getD ⟨[], 0⟩).history ++
              histFrom ((lookupMap st.sessions sid).getD ⟨[], 0⟩).turns (c :: c2 :: rest2) := by
          simp [histFrom, List.append_assoc]
        rw [← harith, ← hhist]

/-- C5: after the agent processes `N ≥ 1` `session/send` messages for a
fresh session id, the `history` carried by the `N`-th `session/complete`
(the last output of the `N`-th send) has length exactly `2N`, its entry at
even position `2k` is the user turn with the `k`-th sent content, and its
entry at position `2k+1` is the assistant reply for turn `k+1`. -/
theorem history_accumulation (cfg : MockAgentConfig) (st : AgentState) (s : Str)
    (contents : List Str) (hfresh : lookupMap st.sessions s = none) (hne : contents ≠ []) :
    ∃ pre lastC,
      contents.getLast? = some lastC ∧
      (runSends cfg st s contents).2 =
        pre ++ [OutMsg.sessionComplete s
          ⟨"assistant".data, mockResponse contents.length lastC⟩ (histFrom 0 contents)] ∧
      (histFrom 0 contents).length = 2 * contents.length ∧
      (∀ k, k < contents.length →
        (histFrom 0 contents).getD (2 * k) ⟨[], []⟩ = ⟨"user".data, contents.getD k []⟩ ∧
        (histFrom 0 contents).getD (2 * k + 1) ⟨[], []⟩ =
          ⟨"assistant".data, mockResponse (k + 1) (contents.getD k [])⟩) := by
  obtain ⟨pre, lastC, hlast, hout⟩ := runSends_last cfg s contents st hne
  rw [hfresh] at hout
  simp only [Option.getD_none, Nat.zero_add, List.nil_append] at hout
  refine ⟨pre, lastC, hlast, hout, histFrom_length contents 0, ?_⟩
  intro k hk
  have h := histFrom_getD contents 0 k hk
  simpa using h

theorem history_accumulation_witness :
    lookupMap (AgentState.mk [] [] [] 0 0).sessions "s1".data = none ∧
      (["hello".data] : List Str) ≠ [] ∧
      (∃ pre lastC,
        (["hello".data] : List Str).getLast? = some lastC ∧
        (runSends ⟨4, false, true⟩ (AgentState.mk [] [] [] 0 0) "s1".data ["hello".data]).2 =
          pre ++ [OutMsg.sessionComplete "s1".data
            ⟨"assistant".data, mockResponse (["hello".data] : List Str).length lastC⟩
            (histFrom 0 ["hello".data])] ∧
        (histFrom 0 ["hello".data]).length = 2 * (["hello".data] : List Str).length ∧
        (∀ k, k < (["hello".data] : List Str).length →
          (histFrom 0 ["hello".data]).getD (2 * k) ⟨[], []⟩ =
            ⟨"user".data, (["hello".data] : List Str).getD k []⟩ ∧
          (histFrom 0 ["hello".data]).getD (2 * k + 1) ⟨[], []⟩ =
            ⟨"assistant".data, mockResponse (k + 1) ((["hello".data] : List Str).getD k [])⟩)) :=
  ⟨rfl, by decide,
    history_accumulation ⟨4, false, true⟩ (AgentState.mk [] [] [] 0 0) "s1".data
      ["hello".data] rfl (by decide)⟩

theorem chunkLoop_flatten (text : Str) (size : Nat) :
    ∀ (fuel i : Nat), text.length ≤ (i + fuel) * size →
      (chunkLoop text size fuel i).flatten = text.drop (i * size) := by
  intro fuel
  induction fuel with
  | zero =>
    intro i h
    simp only [chunkLoop, List.flatten_nil]
    exact (List.drop_eq_nil_of_le (by simpa using h)).symm
  | succ fuel ih =>
    intro i h
    simp only [chunkLoop]
    by_cases hstart : i * size ≥ text.length
    · rw [if_pos hstart]
      exact (List.drop_eq_nil_of_le hstart).symm
    · rw [if_neg hstart]
      push_neg at hstart
      simp only [List.flatten_cons]
      rw [ih (i + 1) (by
        have he : i + 1 + fuel = i + (fuel + 1) := by omega
        rw [he]
        exact h)]
      by_cases hend : text.length ≤ (i + 1) * size
      · rw [min_eq_left hend, List.drop_eq_nil_of_le hend, List.append_nil]
        apply List.take_of_length_le
        rw [List.length_drop]
      · push_neg at hend
        rw [min_eq_right (le_of_lt hend)]
        have hle : i * size ≤ (i + 1) * size := Nat.mul_le_mul_right _ (by omega)
        have hd : text.drop ((i + 1) * size) =
            (text.drop (i * size)).drop ((i + 1) * size - i * size) := by
          rw [List.drop_drop]
          congr 1
          omega
        rw [hd, List.take_append_drop]

theorem chunkString_flatten (text : Str) (parts : Nat) :
    (chunkString text parts).flatten = text := by
  unfold chunkString
  by_cases hp : parts ≤ 1
  · rw [if_pos hp]
    simp
  · rw [if_neg hp]
    push_neg at hp
    simp only []
    have hcover : text.length ≤ (0 + parts) * ((text.length + parts - 1) / parts) := by
      rw [Nat.zero_add]
      have hdm := Nat.div_add_mod (text.length + parts - 1) parts
      have hmod : (text.length + parts - 1) % parts < parts := Nat.mod_lt _ (by omega)
      omega
    have hflat := chunkLoop_flatten text ((text.length + parts - 1) / parts) parts 0 hcover
    simp only [Nat.zero_mul, List.drop_zero] at hflat
    by_cases hc : (chunkLoop text ((text.length + parts - 1) / parts) parts 0).length > 0
    · rw [if_pos hc]
      exact hflat
    · rw [if_neg hc]
      push_neg at hc
      have hnil : chunkLoop text ((text.length + parts - 1) / parts) parts 0 = [] :=
        List.length_eq_zero.mp (by omega)
      rw [hnil] at hflat
      simp only [List.flatten_nil] at hflat
      simp [← hflat]

theorem chunkString_ne_nil (text : Str) (parts : Nat) : chunkString text parts ≠ [] := by
  unfold chunkString
  by_cases hp : parts ≤ 1
  · rw [if_pos hp]
    simp
  · rw [if_neg hp]
    simp only []
    by_cases hc : (chunkLoop text ((text.length + parts - 1) / parts) parts 0).length > 0
    · rw [if_pos hc]
      exact List.ne_nil_of_length_pos hc
    · rw [if_neg hc]
      simp

/-! ### Streaming parity -/

/-- Pair each delta with its 0-based emission index starting at `i`. -/
def enumFrom : Nat → List Str → List (Nat × Str)
  | _, [] => []
  | i, d :: rest => (i, d) :: enumFrom (i + 1) rest

/-- How `sendAndWaitComplete` classifies an agent output pulled from the
transport. -/
def toClientMsg : OutMsg → ClientInMsg
  | .sessionStream sid i d => .stream sid (some i) (some d)
  | .sessionComplete sid m h => .complete sid m h
  | _ => .other

/-- Is the message a `session/stream` delta? -/
def isStreamMsg : OutMsg → Bool
  | .sessionStream _ _ _ => true
  | _ => false

/-- Is the message a `session/complete`? -/
def isCompleteMsg : OutMsg → Bool
  | .sessionComplete _ _ _ => true
  | _ => false

/-- Number of `session/stream` messages among the outputs. -/
def countStream (outs : List OutMsg) : Nat := (outs.filter isStreamMsg).length

/-- Number of `session/complete` messages among the outputs. -/
def countComplete (outs : List OutMsg) : Nat := (outs.filter isCompleteMsg).length

theorem enumFrom_eq_zip : ∀ (ds : List Str) (i : Nat),
    enumFrom i ds = (List.range' i ds.length).zip ds := by
  intro ds
  induction ds with
  | nil => intro i; rfl
  | cons d rest ih =>
    intro i
    simp only [enumFrom, List.length_cons, List.range'_succ, List.zip_cons_cons]
    rw [ih (i + 1)]

theorem enumFrom_zero (ds : List Str) : enumFrom 0 ds = (List.range ds.length).zip ds := by
  rw [enumFrom_eq_zip, List.range_eq_range']

theorem streamDeltas_map_toClient (s : Str) :
    ∀ (ds : List Str) (i : Nat),
      (streamDeltas s i ds).map toClientMsg =
        (enumFrom i ds).map (fun p => ClientInMsg.stream s (some p.1) (some p.2)) := by
  intro ds
  induction ds with
  | nil => intro i; rfl
  | cons d rest ih =>
    intro i
    simp only [streamDeltas, enumFrom, List.map_cons, toClientMsg]
    rw [ih (i + 1)]

theorem countStream_streamDeltas (s : Str) :
    ∀ (ds : List Str) (i : Nat), countStream (streamDeltas s i ds) = ds.length := by
  intro ds
  induction ds with
  | nil => intro i; rfl
  | cons d rest ih =>
    intro i
    simp only [countStream, streamDeltas, List.filter_cons, isStreamMsg, List.length_cons]
    simp only [countStream] at ih
    simp only [if_true, List.length_cons]
    rw [ih (i + 1)]

theorem countComplete_streamDeltas (s : Str) :
    ∀ (ds : List Str) (i : Nat), countComplete (streamDeltas s i ds) = 0 := by
  intro ds
  induction ds with
  | nil => intro i; rfl
  | cons d rest ih =>
    intro i
    simp only [countComplete, streamDeltas, List.filter_cons, isCompleteMsg]
    simp only [countComplete] at ih
    rw [if_neg (by simp)]
    exact ih (i + 1)

theorem map_toClient_toolMsgs (b : Bool) (s nm : Str) (t n : Nat) :
    (if b then [OutMsg.toolCall s nm t n] else []).map toClientMsg =
      (if b then [ClientInMsg.other] else []) := by
  cases b <;> rfl

theorem receiveLoop_skip_other (s : Str) (acc : List (Nat × Str)) (b : Bool)
    (rest : List ClientInMsg) :
    receiveLoop s acc ((if b then [ClientInMsg.other] else []) ++ rest) =
      receiveLoop s acc rest := by
  cases b <;> rfl

/-- C6: one identical `session/send` request processed with streaming
enabled versus disabled yields the same final assembled text — the
client-side reassembly (`receiveLoop`, i.e. concatenation of delta texts in
ascending index order) of the streaming outputs equals the full response
carried by the non-streaming `session/complete` — with zero deltas when
disabled, at least one delta when enabled, and exactly one
`session/complete` either way. -/
theorem streaming_parity (cfg : MockAgentConfig) (st : AgentState) (s c : Str) :
    ∃ m' h' res,
      (handleSessionSend { cfg with streaming := false } st (some s) (some c)).2 =
        [OutMsg.sessionComplete s m' h'] ∧
      receiveLoop s []
        ((handleSessionSend { cfg with streaming := true } st (some s) (some c)).2.map
          toClientMsg) = some res ∧
      res.combined = m'.content ∧ res.message = m' ∧ res.history = h' ∧
      countStream (handleSessionSend { cfg with streaming := true } st (some s) (some c)).2 ≥ 1 ∧
      countStream (handleSessionSend { cfg with streaming := false } st (some s) (some c)).2 = 0 ∧
      countComplete (handleSessionSend { cfg with streaming := true } st (some s) (some c)).2 = 1 ∧
      countComplete (handleSessionSend { cfg with streaming := false } st (some s)
        (some c)).2 = 1 := by
  refine ⟨⟨"assistant".data,
      mockResponse (((lookupMap st.sessions s).getD ⟨[], 0⟩).turns + 1) c⟩,
    ((lookupMap st.sessions s).getD ⟨[], 0⟩).history ++ [⟨"user".data, c⟩] ++
      [⟨"assistant".data, mockResponse (((lookupMap st.sessions s).getD ⟨[], 0⟩).turns + 1) c⟩],
    ⟨⟨"assistant".data, mockResponse (((lookupMap st.sessions s).getD ⟨[], 0⟩).turns + 1) c⟩,
      ((lookupMap st.sessions s).getD ⟨[], 0⟩).history ++ [⟨"user".data, c⟩] ++
        [⟨"assistant".data,
          mockResponse (((lookupMap st.sessions s).getD ⟨[], 0⟩).turns + 1) c⟩],
      mockResponse (((lookupMap st.sessions s).getD ⟨[], 0⟩).turns + 1) c⟩, ?_, ?_, rfl, rfl,
    rfl, ?_, ?_, ?_, ?_⟩
  · simp [handleSessionSend]
  · simp only [handleSessionSend, Option.getD_some, Bool.true_and, if_true]
    rw [List.map_append, List.map_append, map_toClient_toolMsgs, List.append_assoc,
      receiveLoop_skip_other, streamDeltas_map_toClient]
    simp only [List.map_cons, List.map_nil, toClientMsg]
    rw [receiveLoop_stream_pairs]
    rw [foldl_setIdx_eq_append _ [] ?nodup (by simp)]
    case nodup =>
      rw [enumFrom_zero, List.map_fst_zip _ _ (by simp)]
      exact List.nodup_range _
    simp only [List.nil_append, receiveLoop, if_true]
    have hs : sortedJoin (enumFrom 0
        (chunkString (mockResponse (((lookupMap st.sessions s).getD ⟨[], 0⟩).turns + 1) c)
          cfg.chunks)) =
        mockResponse (((lookupMap st.sessions s).getD ⟨[], 0⟩).turns + 1) c := by
      rw [enumFrom_zero, sortedJoin_perm_canonical _ _ (List.Perm.refl _)]
      exact chunkString_flatten _ _
    rw [hs]
  · simp only [handleSessionSend, Option.getD_some, Bool.true_and, if_true]
    simp only [countStream, List.filter_append, List.length_append]
    have h1 := countStream_streamDeltas s
      (chunkString (mockResponse (((lookupMap st.sessions s).getD ⟨[], 0⟩).turns + 1) c)
        cfg.chunks) 0
    simp only [countStream] at h1
    rw [h1]
    have h2 := List.length_pos.mpr (chunkString_ne_nil
      (mockResponse (((lookupMap st.sessions s).getD ⟨[], 0⟩).turns + 1) c) cfg.chunks)
    have h3 : (List.filter isStreamMsg (if cfg.emitToolCalls = true then
        [OutMsg.toolCall s "mock.tool".data
          (((lookupMap st.sessions s).getD ⟨[], 0⟩).turns + 1) c.length]
      else [])).length = 0 := by
      cases cfg.emitToolCalls <;> rfl
    rw [h3]
    simp only [List.filter_cons, List.filter_nil]
    omega
  · simp [handleSessionSend, countStream, isStreamMsg]
  · simp only [handleSessionSend, Option.getD_some, Bool.true_and, if_true]
    simp only [countComplete, List.filter_append, List.length_append]
    have h1 := countComplete_streamDeltas s
      (chunkString (mockResponse (((lookupMap st.sessions s).getD ⟨[], 0⟩).turns + 1) c)
        cfg.chunks) 0
    simp only [countComplete] at h1
    rw [h1]
    have h3 : (List.filter isCompleteMsg (if cfg.emitToolCalls = true then
        [OutMsg.toolCall s "mock.tool".data
          (((lookupMap st.sessions s).getD ⟨[], 0⟩).turns + 1) c.length]
      else [])).length = 0 := by
      cases cfg.emitToolCalls <;> rfl
    rw [h3]
    simp [isCompleteMsg]
  · simp [handleSessionSend, countComplete, isCompleteMsg]

/-! ### The stdio transport (`src/stdio-transport.ts`) -/

/-- `StdioJsonTransport` state: the frame decoder, the FIFO queue of decoded
but unconsumed messages, the `ended` flag, and the frames accepted by the
writable sink.  The waiter list (pending pulls) is not modeled: no claim
inspects it, and `close()` only resolves those pulls with end-of-stream. -/
structure Transport where
  decoder : FrameDecoder
  queue : List (List Byte)
  ended : Bool
  written : List (List Byte)
deriving DecidableEq

/-- `send(message)`: throws `"Transport is closed"` after close, otherwise
encodes the message and writes the frame to the sink (the backpressure wait
changes no state). -/
def Transport.send (t : Transport) (payload : List Byte) : Except String Transport :=
  if t.ended then .error "Transport is closed"
  else .ok { t with written := t.written ++ [encodeFrame payload] }

/-- `close()`: idempotent; sets `ended` (and detaches listeners / resolves
waiters, which this model does not track). -/
def Transport.close (t : Transport) : Transport :=
  if t.ended then t else { t with ended := true }

/-- The `data` listener: feed the chunk to the decoder and enqueue every
decoded message; a decode error is routed to `onError`, which closes the
transport ("fail closed"). -/
def Transport.onData (t : Transport) (chunk : List Byte) : Transport :=
  match t.decoder.push chunk with
  | .ok (msgs, d') => { t with decoder := d', queue := t.queue ++ msgs }
  | .error _ => t.close

/-- The `end` listener: natural stream end triggers close. -/
def Transport.onEnd (t : Transport) : Transport := t.close

/-- The `error` listener: a read error triggers close. -/
def Transport.onError (t : Transport) : Transport := t.close

/-- The inbound events that can act on a transport after construction. -/
inductive TransportOp where
  | close
  | onEnd
  | onError
  | onData (chunk : List Byte)
deriving DecidableEq

/-- Apply one transport event. -/
def applyOp (t : Transport) : TransportOp → Transport
  | .close => t.close
  | .onEnd => t.onEnd
  | .onError => t.onError
  | .onData chunk => t.onData chunk

/-- Apply a sequence of transport events. -/
def applyOps (t : Transport) : List TransportOp → Transport
  | [] => t
  | op :: rest => applyOps (applyOp t op) rest

theorem close_ended (t : Transport) : (t.close).ended = true := by
  by_cases h : t.ended = true <;> simp [Transport.close, h]

theorem applyOp_ended (t : Transport) (op : TransportOp) (h : t.ended = true) :
    (applyOp t op).ended = true := by
  cases op with
  | close => simp [applyOp, close_ended]
  | onEnd => simp [applyOp, Transport.onEnd, close_ended]
  | onError => simp [applyOp, Transport.onError, close_ended]
  | onData chunk =>
    simp only [applyOp, Transport.onData]
    rcases hp : t.decoder.push chunk with e | p
    · simp [close_ended]
    · obtain ⟨msgs, d'⟩ := p
      simpa using h

theorem applyOps_ended (ops : List TransportOp) :
    ∀ (t : Transport), t.ended = true → (applyOps t ops).ended = true := by
  induction ops with
  | nil => intro t h; exact h
  | cons op rest ih =>
    intro t h
    exact ih (applyOp t op) (applyOp_ended t op h)

theorem applyOp_written (t : Transport) (op : TransportOp) :
    (applyOp t op).written = t.written := by
  cases op with
  | close => by_cases h : t.ended = true <;> simp [applyOp, Transport.close, h]
  | onEnd =>
    by_cases h : t.ended = true <;> simp [applyOp, Transport.onEnd, Transport.close, h]
  | onError =>
    by_cases h : t.ended = true <;> simp [applyOp, Transport.onError, Transport.close, h]
  | onData chunk =>
    simp only [applyOp, Transport.onData]
    rcases hp : t.decoder.push chunk with e | p
    · by_cases h : t.ended = true <;> simp [Transport.close, h]
    · obtain ⟨msgs, d'⟩ := p
      simp

theorem applyOps_written (ops : List TransportOp) :
    ∀ (t : Transport), (applyOps t ops).written = t.written := by
  induction ops with
  | nil => intro t; rfl
  | cons op rest ih =>
    intro t
    rw [applyOps, ih (applyOp t op), applyOp_written]

/-- C10: once `close()` has run — whether called explicitly, or triggered by
inbound stream end, a read error, or a decode error inside `onData` — every
subsequent `send(m)`, after any further sequence of inbound events, throws
`"Transport is closed"`, and no bytes are written to the writable sink. -/
theorem send_after_close_fails (t t' : Transport) (ops : List TransportOp)
    (m : List Byte) (e : String) (c : List Byte)
    (hclosed : t' = t.close ∨ t' = t.onEnd ∨ t' = t.onError ∨
      (t' = t.onData c ∧ t.decoder.push c = .error e)) :
    (applyOps t' ops).ended = true ∧
      Transport.send (applyOps t' ops) m = .error "Transport is closed" ∧
      (applyOps t' ops).written = t'.written := by
  have hend : t'.ended = true := by
    rcases hclosed with h | h | h | ⟨h, hp⟩
    · rw [h]; exact close_ended t
    · rw [h]; exact close_ended t
    · rw [h]; exact close_ended t
    · rw [h]
      simp only [Transport.onData, hp]
      exact close_ended t
  have hops := applyOps_ended ops t' hend
  exact ⟨hops, by simp [Transport.send, hops], applyOps_written ops t'⟩

theorem send_after_close_fails_witness :
    ((applyOps (Transport.close ⟨FrameDecoder.init, [], false, []⟩)
        [TransportOp.onData [1, 2]]).ended = true ∧
      Transport.send (applyOps (Transport.close ⟨FrameDecoder.init, [], false, []⟩)
        [TransportOp.onData [1, 2]]) [65] = .error "Transport is closed" ∧
      (applyOps (Transport.close ⟨FrameDecoder.init, [], false, []⟩)
        [TransportOp.onData [1, 2]]).written =
        (Transport.close ⟨FrameDecoder.init, [], false, []⟩).written) :=
  send_after_close_fails ⟨FrameDecoder.init, [], false, []⟩
    (Transport.close ⟨FrameDecoder.init, [], false, []⟩) [TransportOp.onData [1, 2]]
    [65] "" [] (Or.inl rfl)

/-! ### The pull timeout of `nextMessage` (`src/runtime/session-client.ts`) -/

/-- The fixed default `timeoutMs` of `nextMessage`; `waitForType` and
`sendAndWaitComplete` always call it with this default. -/
def nextMessageTimeoutMs : Nat := 2000

/-- What one `await` observes under JavaScript event-loop semantics:
the value the awaited promise settles with (if any), and any exception
raised on the event loop outside every promise chain (an
`uncaughtException`, which by default crashes the process and is not
catchable by the awaiting caller). -/
structure JsAwaitOutcome where
  callerResult : Option (Except String ClientInMsg)
  uncaughtException : Option String

/-- How one `nextMessage` pull resolves relative to its 2000 ms timer. -/
inductive IterEvent where
  | value (m : ClientInMsg)
  | done
  | pendingPastTimeout
deriving DecidableEq

/-- `nextMessage` from `src/runtime/session-client.ts` under JavaScript
timer semantics: if `iter.next()` settles before the timer, the timer is
cleared in the `finally` and the caller gets the message (or the
end-of-stream error for `done`).  If nothing settles within
`nextMessageTimeoutMs`, the `setTimeout` callback runs as its own macrotask
and its `throw new Error(...)` settles no promise: it becomes an
event-loop `uncaughtException` while the caller's `await iter.next()`
remains pending — so no result ever reaches the caller. -/
def nextMessage (label : String) (ev : IterEvent) : JsAwaitOutcome :=
  match ev with
  | .value m => ⟨some (.ok m), none⟩
  | .done => ⟨some (.error ("Unexpected end of stream while waiting for " ++ label)), none⟩
  | .pendingPastTimeout => ⟨none, some ("Timeout waiting for " ++ label)⟩

/-- C8 (code bug exhibit): the pull timeout is the fixed 2000 ms and the
timeout error text is `"Timeout waiting for <label>"`, but on a pull that
exceeds the timeout the caller of the operation receives nothing: the error
is raised as an event-loop uncaught exception (the `throw` happens inside
the `setTimeout` callback, not inside the awaited promise chain), so it is
not surfaced to the caller, contrary to the claim. -/
theorem timeout_error_not_surfaced_to_caller (label : String) :
    nextMessageTimeoutMs = 2000 ∧
      (nextMessage label .pendingPastTimeout).callerResult = none ∧
      (nextMessage label .pendingPastTimeout).uncaughtException =
        some ("Timeout waiting for " ++ label) :=
  ⟨rfl, rfl, rfl⟩
